import Mathlib

/-!
Shallow embedding of the ingestion / indexing / metadata / retrieval core of
the Oracle-AWR-RAG application, together with proofs of the specified
properties.

The Python dictionaries backing the metadata ledger are embedded as
association lists over `String` keys; Python integers are embedded as `Int`
(they are unbounded and subtraction may go below zero); timestamps are
abstracted as `Nat` values passed in by the caller (the code reads the wall
clock, which is irrelevant to every property proved here).
-/

namespace AwrRag

/-! ### Association-list dictionary (embedding of Python `dict`) -/

/-- Lookup of a key in an association list: returns the first binding,
mirroring Python `d.get(k)` / `k in d`. -/
def lookupKey {β : Type} (k : String) : List (String × β) → Option β
  | [] => none
  | (k2, v) :: rest => if k2 = k then some v else lookupKey k rest

/-- Insert-or-overwrite, mirroring Python `d[k] = v`: replaces the first
binding of `k` in place, or appends a new binding at the end. -/
def setKey {β : Type} (k : String) (v : β) : List (String × β) → List (String × β)
  | [] => [(k, v)]
  | (k2, v2) :: rest => if k2 = k then (k, v) :: rest else (k2, v2) :: setKey k v rest

/-- Deletion, mirroring Python `del d[k]`: removes the first binding of `k`. -/
def removeKey {β : Type} (k : String) : List (String × β) → List (String × β)
  | [] => []
  | (k2, v2) :: rest => if k2 = k then rest else (k2, v2) :: removeKey k rest

/-- Sum of an integer projection of the values of an association list. -/
def sumBy {β : Type} (f : β → Int) (d : List (String × β)) : Int :=
  (d.map (fun p => f p.2)).sum

/-- Keys of an association list. -/
def keysOf {β : Type} (d : List (String × β)) : List String :=
  d.map Prod.fst

/-! ### MetadataManager (src/ingestor/metadata_manager.py)

The ledger's in-memory state (`self.metadata`). File persistence
(`_save_metadata`) only mirrors this state to disk and swallows its own
errors, so the embedded operations act on the state directly; `_load_metadata`
is embedded separately with the backing file's possible conditions as input.
Timestamps (`datetime.now().isoformat()`) are abstracted as a `now : Nat`
argument. -/

/-- One row of the `documents` dict (a MetadataEntry). -/
structure MetadataEntry where
  filename : String
  chunk_count : Int
  file_size : Int
  ingested_at : Nat
  status : String
  last_updated : Option Nat
  deriving DecidableEq, Repr

/-- The `statistics` dict (CollectionStatistics). -/
structure CollectionStatistics where
  total_documents : Int
  total_chunks : Int
  total_size_bytes : Int
  deriving DecidableEq, Repr

/-- The whole `self.metadata` dict of `MetadataManager`. -/
structure Metadata where
  version : String
  created_at : Nat
  documents : List (String × MetadataEntry)
  statistics : CollectionStatistics
  deriving DecidableEq, Repr

/-- Embedding of `MetadataManager._create_empty_metadata`. -/
def create_empty_metadata (now : Nat) : Metadata :=
  { version := "1.0"
    created_at := now
    documents := []
    statistics := { total_documents := 0, total_chunks := 0, total_size_bytes := 0 } }

/-- Embedding of `MetadataManager._load_metadata`. The backing file is given
as `none` when absent, `some none` when present but unparseable, and
`some (some data)` when it parses to `data`. -/
def load_metadata (fileData : Option (Option Metadata)) (now : Nat) : Metadata :=
  match fileData with
  | none => create_empty_metadata now
  | some none => create_empty_metadata now
  | some (some data) => data

/-- Embedding of `MetadataManager.register_document`. Returns the new state
and the boolean result. The body's `try` never fails (dict assignment and
arithmetic are total; `_save_metadata` catches its own exceptions), so the
result is always `true`. -/
def register_document (m : Metadata) (doc_id filename : String)
    (chunk_count file_size : Int) (now : Nat) : Metadata × Bool :=
  let entry : MetadataEntry :=
    { filename := filename
      chunk_count := chunk_count
      file_size := file_size
      ingested_at := now
      status := "indexed"
      last_updated := none }
  let docs := setKey doc_id entry m.documents
  ({ m with
      documents := docs
      statistics :=
        { total_documents := (docs.length : Int)
          total_chunks := m.statistics.total_chunks + chunk_count
          total_size_bytes := m.statistics.total_size_bytes + file_size } },
   true)

/-- Embedding of `MetadataManager.unregister_document`. -/
def unregister_document (m : Metadata) (doc_id : String) : Metadata × Bool :=
  match lookupKey doc_id m.documents with
  | some doc =>
      ({ m with
          documents := removeKey doc_id m.documents
          statistics :=
            { total_documents := m.statistics.total_documents - 1
              total_chunks := m.statistics.total_chunks - doc.chunk_count
              total_size_bytes := m.statistics.total_size_bytes - doc.file_size } },
       true)
  | none => (m, false)

/-- Embedding of `MetadataManager.update_document_status`. -/
def update_document_status (m : Metadata) (doc_id status : String) (now : Nat) :
    Metadata × Bool :=
  match lookupKey doc_id m.documents with
  | some doc =>
      ({ m with
          documents :=
            setKey doc_id { doc with status := status, last_updated := some now }
              m.documents },
       true)
  | none => (m, false)

/-- Embedding of `MetadataManager.get_document_info`. -/
def get_document_info (m : Metadata) (doc_id : String) : Option MetadataEntry :=
  lookupKey doc_id m.documents

/-- Embedding of `MetadataManager.document_exists`. -/
def document_exists (m : Metadata) (doc_id : String) : Bool :=
  (lookupKey doc_id m.documents).isSome

/-- Embedding of `MetadataManager.get_statistics`. -/
def get_statistics (m : Metadata) : CollectionStatistics :=
  m.statistics

/-- Embedding of `MetadataManager.clear_all_metadata`. -/
def clear_all_metadata (_m : Metadata) (now : Nat) : Metadata :=
  create_empty_metadata now

/-! ### Ledger operation traces -/

/-- The state-mutating ledger operations, used to quantify over every
sequence of calls on a `MetadataManager`. -/
inductive LedgerOp where
  | register (doc_id filename : String) (chunk_count file_size : Int) (now : Nat)
  | unregister (doc_id : String)
  | updateStatus (doc_id status : String) (now : Nat)
  | clearAll (now : Nat)
  deriving DecidableEq, Repr

/-- Apply one ledger operation to a state. -/
def applyOp (m : Metadata) : LedgerOp → Metadata
  | .register doc_id filename chunk_count file_size now =>
      (register_document m doc_id filename chunk_count file_size now).1
  | .unregister doc_id => (unregister_document m doc_id).1
  | .updateStatus doc_id status now => (update_document_status m doc_id status now).1
  | .clearAll now => clear_all_metadata m now

/-- Run a sequence of ledger operations from a state. -/
def runOps (m : Metadata) (ops : List LedgerOp) : Metadata :=
  ops.foldl applyOp m

/-- Recomputed-from-scratch chunk total over the registered entries. -/
def sumChunks (d : List (String × MetadataEntry)) : Int :=
  sumBy (fun e => e.chunk_count) d

/-- Recomputed-from-scratch byte total over the registered entries. -/
def sumSizes (d : List (String × MetadataEntry)) : Int :=
  sumBy (fun e => e.file_size) d

/-- An operation trace never feeds a negative chunk count or file size to
`register` (the code is only ever called with `len(chunks)` and an actual
file size). -/
def opsNonneg (ops : List LedgerOp) : Bool :=
  ops.all fun op =>
    match op with
    | .register _ _ c s _ => 0 ≤ c && 0 ≤ s
    | _ => true

/-- An operation trace, started from state `m`, never registers a document id
that is currently registered (no overwrites). -/
def noOverwrites (m : Metadata) : List LedgerOp → Bool
  | [] => true
  | op :: rest =>
      (match op with
       | .register doc_id _ _ _ _ => (lookupKey doc_id m.documents).isNone
       | _ => true)
      && noOverwrites (applyOp m op) rest

/-! ### Ledger invariants -/

/-- The stored document counter equals the number of registered entries, and
entry keys are duplicate-free (the embedding of a Python dict's key
uniqueness). -/
def docsCountOk (m : Metadata) : Prop :=
  m.statistics.total_documents = (m.documents.length : Int) ∧ (keysOf m.documents).Nodup

/-- The stored chunk/byte counters dominate the recomputed sums, and every
registered entry has nonnegative chunk count and file size. -/
def aggregatesGe (m : Metadata) : Prop :=
  sumChunks m.documents ≤ m.statistics.total_chunks ∧
  sumSizes m.documents ≤ m.statistics.total_size_bytes ∧
  ∀ p ∈ m.documents, 0 ≤ p.2.chunk_count ∧ 0 ≤ p.2.file_size

/-- The stored chunk/byte counters equal the recomputed sums. -/
def aggregatesExact (m : Metadata) : Prop :=
  m.statistics.total_chunks = sumChunks m.documents ∧
  m.statistics.total_size_bytes = sumSizes m.documents

/-! ### DocumentProcessor (src/ingestor/processor.py)

A LangChain `Document` is embedded with its `page_content` and the three
metadata keys the processor reads or writes (possibly absent, as in a Python
dict). `UnstructuredFileLoader.load()` is external: its output is passed in
as a list of raw documents, together with a flag for `os.path.exists`.
`RecursiveCharacterTextSplitter` is external: it is passed in as a
content-splitting function `split`; `split_documents` applies it per document
and copies the document's metadata onto every produced chunk (the library's
behavior). -/

/-- A LangChain document/chunk: content plus the metadata keys used here. -/
structure Document where
  page_content : String
  document_id : Option String
  filename : Option String
  source_path : Option String
  deriving DecidableEq, Repr

/-- A document as produced by the loader, before metadata is stamped. -/
structure RawDoc where
  page_content : String
  deriving DecidableEq, Repr

/-- Embedding of `RecursiveCharacterTextSplitter.split_documents`: each
document's content is split by `split` and every produced chunk carries the
document's metadata. -/
def split_documents (split : String → List String) (docs : List Document) :
    List Document :=
  docs.flatMap fun d => (split d.page_content).map fun c => { d with page_content := c }

/-- Embedding of `DocumentProcessor.load_and_split_document`. `fileExists`
embeds `os.path.exists(file_path)`; `loaded` embeds the list returned by
`UnstructuredFileLoader(file_path).load()` (consulted only when the file
exists). Exceptions (`CustomException` wrapping `FileNotFoundError` /
`ValueError`) are embedded as `Except.error` with the original message. -/
def load_and_split_document (split : String → List String) (fileExists : Bool)
    (loaded : List RawDoc) (file_path doc_id filename : String) :
    Except String (List Document) :=
  if !fileExists then
    .error ("File not found: " ++ file_path)
  else if loaded.isEmpty then
    .error ("No content loaded from " ++ filename)
  else
    let documents := loaded.map fun d =>
      { page_content := d.page_content
        document_id := some doc_id
        filename := some filename
        source_path := some file_path }
    .ok (split_documents split documents)

/-- A string that is empty or whitespace-only: Python's
`not s or len(s.strip()) == 0`. -/
def isBlank (s : String) : Bool :=
  s.data.all Char.isWhitespace

/-- Embedding of `DocumentProcessor.validate_chunks`. A chunk passes when all
three identity keys are present in its metadata and its content is not empty
or whitespace-only. -/
def validate_chunks (chunks : List Document) : Bool :=
  if chunks.isEmpty then
    false
  else
    chunks.all fun c =>
      c.document_id.isSome && c.filename.isSome && c.source_path.isSome &&
        !(isBlank c.page_content)

/-! ### VectorStoreManager.index_documents (src/core/vector_store.py)

The Qdrant collection is embedded by its point count; `add_documents` on the
LangChain vectorstore generates one fresh id per document and upserts one
point per document, so without a concurrent writer it grows the count by the
number of documents. The consistency-check logic of `index_documents` is
embedded twice: once composed with that store model (`index_documents`), and
once over the two point counts the code actually reads, left as parameters so
that a concurrent writer's interference between the two reads is expressible
(`index_documents_observed`). Both results carry the returned ids and
whether the non-fatal delta warning was logged. -/

/-- The Qdrant collection, reduced to the state `index_documents` reads. -/
structure QdrantCollection where
  points_count : Nat
  deriving DecidableEq, Repr

/-- Embedding of `vectorstore.add_documents`: one id and one stored point per
document. -/
def add_documents (coll : QdrantCollection) (docs : List Document) :
    QdrantCollection × List Nat :=
  ({ points_count := coll.points_count + docs.length },
   List.range docs.length)

/-- Result of an indexing call: the new collection, the ids returned by
`add_documents`, and whether the nonzero-but-unexpected-delta warning fired. -/
structure IndexResult where
  coll : QdrantCollection
  ids : List Nat
  warned : Bool
  deriving DecidableEq, Repr

/-- Embedding of `VectorStoreManager.index_documents` composed with the store
model (no concurrent writer between the two `get_collection` reads). The
raised `Exception("Documents were not indexed ...")` is embedded as
`Except.error`. -/
def index_documents (coll : QdrantCollection) (docs : List Document) :
    Except String IndexResult :=
  if docs.isEmpty then
    .ok { coll := coll, ids := [], warned := false }
  else
    let points_before := coll.points_count
    let r := add_documents coll docs
    let points_after := r.1.points_count
    let points_added : Int := (points_after : Int) - (points_before : Int)
    if points_added = 0 then
      .error "Documents were not indexed - no points added to collection!"
    else
      .ok { coll := r.1, ids := r.2, warned := decide (points_added ≠ (docs.length : Int)) }

/-- Embedding of the same checking logic over the two point counts the code
observes, so that interference by a concurrent writer between the before-read
and the after-read is expressible. -/
def index_documents_observed (points_before points_after : Nat) (docs : List Document)
    (ids : List Nat) : Except String (List Nat × Bool) :=
  if docs.isEmpty then
    .ok ([], false)
  else
    let points_added : Int := (points_after : Int) - (points_before : Int)
    if points_added = 0 then
      .error "Documents were not indexed - no points added to collection!"
    else
      .ok (ids, decide (points_added ≠ (docs.length : Int)))

/-! ### DocumentRetriever (src/core/retriever.py)

A stored vector record is embedded by the payload fields retrieval touches.
The collection is a list of records ordered by descending similarity to the
query (the embedding model and scoring are external; only the ordering
matters downstream, and no property proved here depends on it). Qdrant's
similarity search with a `Filter`/`MatchAny(any=doc_ids)` condition returns
the best `k` records among those whose `document_id` payload is a member of
`doc_ids`; this is `qdrant_search`. -/

/-- A stored vector record's payload as seen by retrieval. -/
structure VectorRecord where
  document_id : String
  filename : String
  content : String
  deriving DecidableEq, Repr

/-- Qdrant similarity search over a collection ordered by descending
relevance: keep the records matching the optional any-of filter, return the
top `k`. `none` means no filter. -/
def qdrant_search (coll : List VectorRecord) (k : Nat)
    (filt : Option (List String)) : List VectorRecord :=
  (match filt with
   | none => coll
   | some doc_ids => coll.filter fun r => doc_ids.contains r.document_id).take k

/-- Embedding of `DocumentRetriever.get_unfiltered_retriever` followed by
`retriever.invoke(query)`: an unfiltered search. -/
def get_unfiltered_retriever (coll : List VectorRecord) (k : Nat) :
    List VectorRecord :=
  qdrant_search coll k none

/-- Embedding of `DocumentRetriever.get_filtered_retriever` followed by
`retriever.invoke(query)`: falls back to the unfiltered retriever when
`doc_ids` is empty (Python truthiness of the list), otherwise searches with a
`MatchAny(any=doc_ids)` filter on `metadata.document_id`. -/
def get_filtered_retriever (coll : List VectorRecord) (doc_ids : List String)
    (k : Nat) : List VectorRecord :=
  if doc_ids.isEmpty then
    get_unfiltered_retriever coll k
  else
    qdrant_search coll k (some doc_ids)

/-- Embedding of `DocumentRetriever.retrieve_documents`: dispatches on the
truthiness of `doc_ids` exactly as the source's conditional expression does. -/
def retrieve_documents (coll : List VectorRecord) (doc_ids : List String)
    (k : Nat) : List VectorRecord :=
  if !doc_ids.isEmpty then
    get_filtered_retriever coll doc_ids k
  else
    get_unfiltered_retriever coll k

/-! ### Supporting lemmas -/

theorem lookupKey_setKey_self {β : Type} (k : String) (v : β) (d : List (String × β)) :
    lookupKey k (setKey k v d) = some v := by
  induction d with
  | nil => simp [setKey, lookupKey]
  | cons hd tl ih =>
    obtain ⟨k2, v2⟩ := hd
    by_cases h : k2 = k
    · simp [setKey, h, lookupKey]
    · simp [setKey, h, lookupKey, ih]

theorem lookupKey_setKey_ne {β : Type} (k k' : String) (v : β) (d : List (String × β))
    (hne : k' ≠ k) : lookupKey k' (setKey k v d) = lookupKey k' d := by
  induction d with
  | nil => simp [setKey, lookupKey, Ne.symm hne]
  | cons hd tl ih =>
    obtain ⟨k2, v2⟩ := hd
    by_cases h : k2 = k
    · subst h
      simp [setKey, lookupKey, Ne.symm hne]
    · simp only [setKey, if_neg h, lookupKey]
      by_cases h2 : k2 = k'
      · simp [h2]
      · simp [h2, ih]

theorem length_setKey_absent {β : Type} (k : String) (v : β) (d : List (String × β))
    (h : lookupKey k d = none) : (setKey k v d).length = d.length + 1 := by
  induction d with
  | nil => simp [setKey]
  | cons hd tl ih =>
    obtain ⟨k2, v2⟩ := hd
    by_cases hk : k2 = k
    · simp [lookupKey, hk] at h
    · simp only [lookupKey, if_neg hk] at h
      simp [setKey, hk, ih h]

theorem length_setKey_present {β : Type} (k : String) (v e : β) (d : List (String × β))
    (h : lookupKey k d = some e) : (setKey k v d).length = d.length := by
  induction d with
  | nil => simp [lookupKey] at h
  | cons hd tl ih =>
    obtain ⟨k2, v2⟩ := hd
    by_cases hk : k2 = k
    · simp [setKey, hk]
    · simp only [lookupKey, if_neg hk] at h
      simp [setKey, hk, ih h]

theorem length_removeKey_present {β : Type} (k : String) (e : β) (d : List (String × β))
    (h : lookupKey k d = some e) : (removeKey k d).length + 1 = d.length := by
  induction d with
  | nil => simp [lookupKey] at h
  | cons hd tl ih =>
    obtain ⟨k2, v2⟩ := hd
    by_cases hk : k2 = k
    · simp [removeKey, hk]
    · simp only [lookupKey, if_neg hk] at h
      simp [removeKey, hk, ih h]

theorem sumBy_setKey_absent {β : Type} (f : β → Int) (k : String) (v : β)
    (d : List (String × β)) (h : lookupKey k d = none) :
    sumBy f (setKey k v d) = sumBy f d + f v := by
  induction d with
  | nil => simp [setKey, sumBy]
  | cons hd tl ih =>
    obtain ⟨k2, v2⟩ := hd
    by_cases hk : k2 = k
    · simp [lookupKey, hk] at h
    · simp only [lookupKey, if_neg hk] at h
      simp only [setKey, if_neg hk, sumBy, List.map_cons, List.sum_cons] at *
      rw [ih h]; ring

theorem sumBy_setKey_present {β : Type} (f : β → Int) (k : String) (v e : β)
    (d : List (String × β)) (h : lookupKey k d = some e) :
    sumBy f (setKey k v d) = sumBy f d - f e + f v := by
  induction d with
  | nil => simp [lookupKey] at h
  | cons hd tl ih =>
    obtain ⟨k2, v2⟩ := hd
    by_cases hk : k2 = k
    · simp only [lookupKey, if_pos hk] at h
      obtain rfl : v2 = e := by injection h
      simp only [setKey, if_pos hk, sumBy, List.map_cons, List.sum_cons]
      ring
    · simp only [lookupKey, if_neg hk] at h
      simp only [setKey, if_neg hk, sumBy, List.map_cons, List.sum_cons] at *
      rw [ih h]; ring

theorem sumBy_removeKey_present {β : Type} (f : β → Int) (k : String) (e : β)
    (d : List (String × β)) (h : lookupKey k d = some e) :
    sumBy f (removeKey k d) = sumBy f d - f e := by
  induction d with
  | nil => simp [lookupKey] at h
  | cons hd tl ih =>
    obtain ⟨k2, v2⟩ := hd
    by_cases hk : k2 = k
    · simp only [lookupKey, if_pos hk] at h
      obtain rfl : v2 = e := by injection h
      simp only [removeKey, if_pos hk, sumBy, List.map_cons, List.sum_cons]
      ring
    · simp only [lookupKey, if_neg hk] at h
      simp only [removeKey, if_neg hk, sumBy, List.map_cons, List.sum_cons] at *
      rw [ih h]; ring

theorem mem_setKey {β : Type} (k : String) (v : β) (d : List (String × β)) (p : String × β)
    (hp : p ∈ setKey k v d) : p ∈ d ∨ p = (k, v) := by
  induction d with
  | nil => simp [setKey] at hp; simp [hp]
  | cons hd tl ih =>
    obtain ⟨k2, v2⟩ := hd
    by_cases hk : k2 = k
    · simp only [setKey, if_pos hk, List.mem_cons] at hp
      rcases hp with h | h
      · right; exact h
      · left; exact List.mem_cons_of_mem _ h
    · simp only [setKey, if_neg hk, List.mem_cons] at hp
      rcases hp with h | h
      · left; simp [h]
      · rcases ih h with h2 | h2
        · left; exact List.mem_cons_of_mem _ h2
        · right; exact h2

theorem mem_removeKey {β : Type} (k : String) (d : List (String × β)) (p : String × β)
    (hp : p ∈ removeKey k d) : p ∈ d := by
  induction d with
  | nil => simp [removeKey] at hp
  | cons hd tl ih =>
    obtain ⟨k2, v2⟩ := hd
    by_cases hk : k2 = k
    · simp only [removeKey, if_pos hk] at hp
      exact List.mem_cons_of_mem _ hp
    · simp only [removeKey, if_neg hk, List.mem_cons] at hp
      rcases hp with h | h
      · simp [h]
      · exact List.mem_cons_of_mem _ (ih h)

theorem nodup_keys_setKey {β : Type} (k : String) (v : β) (d : List (String × β))
    (h : (keysOf d).Nodup) : (keysOf (setKey k v d)).Nodup := by
  induction d with
  | nil => simp [setKey, keysOf]
  | cons hd tl ih =>
    obtain ⟨k2, v2⟩ := hd
    simp only [keysOf, List.map_cons, List.nodup_cons] at h
    by_cases hk : k2 = k
    · subst hk
      simpa [setKey, keysOf] using h
    · simp only [setKey, if_neg hk, keysOf, List.map_cons, List.nodup_cons]
      refine ⟨fun hmem => ?_, ih h.2⟩
      rcases List.mem_map.1 hmem with ⟨p, hp, hfst⟩
      rcases mem_setKey k v tl p hp with h2 | h2
      · exact h.1 (hfst ▸ List.mem_map_of_mem Prod.fst h2)
      · exact hk (by rw [h2] at hfst; simpa using hfst.symm)

theorem nodup_keys_removeKey {β : Type} (k : String) (d : List (String × β))
    (h : (keysOf d).Nodup) : (keysOf (removeKey k d)).Nodup := by
  induction d with
  | nil => simp [removeKey, keysOf]
  | cons hd tl ih =>
    obtain ⟨k2, v2⟩ := hd
    simp only [keysOf, List.map_cons, List.nodup_cons] at h
    by_cases hk : k2 = k
    · simpa [removeKey, hk, keysOf] using h.2
    · simp only [removeKey, if_neg hk, keysOf, List.map_cons, List.nodup_cons]
      refine ⟨fun hmem => ?_, ih h.2⟩
      rcases List.mem_map.1 hmem with ⟨p, hp, hfst⟩
      exact h.1 (hfst ▸ List.mem_map_of_mem Prod.fst (mem_removeKey k tl p hp))

theorem lookupKey_eq_none_of_not_mem {β : Type} (k : String) (d : List (String × β))
    (h : k ∉ keysOf d) : lookupKey k d = none := by
  induction d with
  | nil => simp [lookupKey]
  | cons hd tl ih =>
    obtain ⟨k2, v2⟩ := hd
    simp only [keysOf, List.map_cons, List.mem_cons] at h
    push_neg at h
    simp only [lookupKey, if_neg (Ne.symm h.1)]
    exact ih h.2

theorem lookupKey_removeKey_self {β : Type} (k : String) (d : List (String × β))
    (h : (keysOf d).Nodup) : lookupKey k (removeKey k d) = none := by
  induction d with
  | nil => simp [removeKey, lookupKey]
  | cons hd tl ih =>
    obtain ⟨k2, v2⟩ := hd
    simp only [keysOf, List.map_cons, List.nodup_cons] at h
    by_cases hk : k2 = k
    · subst hk
      simp only [removeKey, if_pos rfl]
      exact lookupKey_eq_none_of_not_mem k2 tl h.1
    · simp only [removeKey, if_neg hk, lookupKey, if_neg hk]
      exact ih h.2

theorem lookupKey_mem {β : Type} (k : String) (e : β) (d : List (String × β))
    (h : lookupKey k d = some e) : (k, e) ∈ d := by
  induction d with
  | nil => simp [lookupKey] at h
  | cons hd tl ih =>
    obtain ⟨k2, v2⟩ := hd
    by_cases hk : k2 = k
    · simp only [lookupKey, if_pos hk] at h
      obtain rfl : v2 = e := by injection h
      simp [hk]
    · simp only [lookupKey, if_neg hk] at h
      exact List.mem_cons_of_mem _ (ih h)

theorem docsCountOk_empty (now : Nat) : docsCountOk (create_empty_metadata now) := by
  constructor <;> simp [create_empty_metadata, keysOf]

theorem docsCountOk_applyOp (m : Metadata) (op : LedgerOp) (h : docsCountOk m) :
    docsCountOk (applyOp m op) := by
  obtain ⟨hcount, hnodup⟩ := h
  cases op with
  | register doc_id filename chunk_count file_size now =>
      refine ⟨rfl, ?_⟩
      exact nodup_keys_setKey _ _ _ hnodup
  | unregister doc_id =>
      cases hlk : lookupKey doc_id m.documents with
      | none => simpa [applyOp, unregister_document, hlk] using ⟨hcount, hnodup⟩
      | some e =>
          refine ⟨?_, ?_⟩
          · have hlen := length_removeKey_present doc_id e m.documents hlk
            simp only [applyOp, unregister_document, hlk]
            rw [hcount]
            omega
          · simp only [applyOp, unregister_document, hlk]
            exact nodup_keys_removeKey _ _ hnodup
  | updateStatus doc_id status now =>
      cases hlk : lookupKey doc_id m.documents with
      | none => simpa [applyOp, update_document_status, hlk] using ⟨hcount, hnodup⟩
      | some e =>
          refine ⟨?_, ?_⟩
          · have hlen := length_setKey_present doc_id
              { e with status := status, last_updated := some now } e m.documents hlk
            simp only [applyOp, update_document_status, hlk]
            rw [hcount, hlen]
          · simp only [applyOp, update_document_status, hlk]
            exact nodup_keys_setKey _ _ _ hnodup
  | clearAll now => exact docsCountOk_empty now

theorem docsCountOk_runOps (m : Metadata) (ops : List LedgerOp) (h : docsCountOk m) :
    docsCountOk (runOps m ops) := by
  induction ops generalizing m with
  | nil => exact h
  | cons op rest ih => exact ih (applyOp m op) (docsCountOk_applyOp m op h)

theorem sumBy_nonneg {β : Type} (f : β → Int) (d : List (String × β))
    (h : ∀ p ∈ d, 0 ≤ f p.2) : 0 ≤ sumBy f d := by
  apply List.sum_nonneg
  intro x hx
  rcases List.mem_map.1 hx with ⟨p, hp, rfl⟩
  exact h p hp

theorem aggregatesGe_empty (now : Nat) : aggregatesGe (create_empty_metadata now) := by
  refine ⟨?_, ?_, ?_⟩ <;> simp [create_empty_metadata, sumChunks, sumSizes, sumBy]

theorem aggregatesGe_applyOp (m : Metadata) (op : LedgerOp) (h : aggregatesGe m)
    (hop : opsNonneg [op] = true) : aggregatesGe (applyOp m op) := by
  obtain ⟨hch, hsz, hent⟩ := h
  simp only [sumChunks, sumSizes] at hch hsz
  cases op with
  | register doc_id filename chunk_count file_size now =>
      simp only [opsNonneg, List.all_cons, List.all_nil, Bool.and_true,
        Bool.and_eq_true, decide_eq_true_eq] at hop
      obtain ⟨hc, hs⟩ := hop
      refine ⟨?_, ?_, ?_⟩
      · show sumChunks (setKey doc_id
            ⟨filename, chunk_count, file_size, now, "indexed", none⟩ m.documents) ≤
          m.statistics.total_chunks + chunk_count
        simp only [sumChunks]
        cases hlk : lookupKey doc_id m.documents with
        | none =>
            rw [sumBy_setKey_absent _ _ _ _ hlk]
            dsimp only
            omega
        | some e =>
            rw [sumBy_setKey_present _ _ _ _ _ hlk]
            dsimp only
            have hce : 0 ≤ e.chunk_count := (hent _ (lookupKey_mem doc_id e m.documents hlk)).1
            omega
      · show sumSizes (setKey doc_id
            ⟨filename, chunk_count, file_size, now, "indexed", none⟩ m.documents) ≤
          m.statistics.total_size_bytes + file_size
        simp only [sumSizes]
        cases hlk : lookupKey doc_id m.documents with
        | none =>
            rw [sumBy_setKey_absent _ _ _ _ hlk]
            dsimp only
            omega
        | some e =>
            rw [sumBy_setKey_present _ _ _ _ _ hlk]
            dsimp only
            have hse : 0 ≤ e.file_size := (hent _ (lookupKey_mem doc_id e m.documents hlk)).2
            omega
      · intro p hp
        replace hp : p ∈ setKey doc_id
            (⟨filename, chunk_count, file_size, now, "indexed", none⟩ : MetadataEntry)
            m.documents := hp
        rcases mem_setKey doc_id ⟨filename, chunk_count, file_size, now, "indexed", none⟩
          m.documents p hp with h2 | h2
        · exact hent p h2
        · rw [h2]; exact ⟨hc, hs⟩
  | unregister doc_id =>
      cases hlk : lookupKey doc_id m.documents with
      | none =>
          simp only [applyOp, unregister_document, hlk]
          exact ⟨hch, hsz, hent⟩
      | some e =>
          have h1 := sumBy_removeKey_present (fun e => e.chunk_count) doc_id e m.documents hlk
          have h2 := sumBy_removeKey_present (fun e => e.file_size) doc_id e m.documents hlk
          dsimp only at h1 h2
          simp only [applyOp, unregister_document, hlk]
          refine ⟨?_, ?_, ?_⟩
          · simp only [sumChunks]
            omega
          · simp only [sumSizes]
            omega
          · intro p hp
            exact hent p (mem_removeKey doc_id m.documents p hp)
  | updateStatus doc_id status now =>
      cases hlk : lookupKey doc_id m.documents with
      | none =>
          simp only [applyOp, update_document_status, hlk]
          exact ⟨hch, hsz, hent⟩
      | some e =>
          have h1 := sumBy_setKey_present (fun e => e.chunk_count) doc_id
            { e with status := status, last_updated := some now } e m.documents hlk
          have h2 := sumBy_setKey_present (fun e => e.file_size) doc_id
            { e with status := status, last_updated := some now } e m.documents hlk
          dsimp only at h1 h2
          have hee : 0 ≤ e.chunk_count ∧ 0 ≤ e.file_size :=
            hent _ (lookupKey_mem doc_id e m.documents hlk)
          simp only [applyOp, update_document_status, hlk]
          refine ⟨?_, ?_, ?_⟩
          · simp only [sumChunks]
            omega
          · simp only [sumSizes]
            omega
          · intro p hp
            rcases mem_setKey doc_id { e with status := status, last_updated := some now }
              m.documents p hp with hm | hm
            · exact hent p hm
            · rw [hm]; exact hee
  | clearAll now => exact aggregatesGe_empty now

theorem aggregatesGe_runOps (m : Metadata) (ops : List LedgerOp) (h : aggregatesGe m)
    (hops : opsNonneg ops = true) : aggregatesGe (runOps m ops) := by
  induction ops generalizing m with
  | nil => exact h
  | cons op rest ih =>
      simp only [opsNonneg, List.all_cons, Bool.and_eq_true] at hops
      refine ih (applyOp m op) ?_ ?_
      · exact aggregatesGe_applyOp m op h (by simp [opsNonneg, hops.1])
      · simp [opsNonneg, hops.2]

theorem aggregatesExact_empty (now : Nat) :
    aggregatesExact (create_empty_metadata now) := by
  constructor <;> simp [create_empty_metadata, sumChunks, sumSizes, sumBy]

theorem aggregatesExact_applyOp (m : Metadata) (op : LedgerOp) (h : aggregatesExact m)
    (hop : match op with
           | .register doc_id _ _ _ _ => (lookupKey doc_id m.documents).isNone = true
           | _ => True) :
    aggregatesExact (applyOp m op) := by
  obtain ⟨hch, hsz⟩ := h
  simp only [sumChunks, sumSizes] at hch hsz
  cases op with
  | register doc_id filename chunk_count file_size now =>
      simp only [Option.isNone_iff_eq_none] at hop
      constructor
      · show m.statistics.total_chunks + chunk_count = sumChunks (setKey doc_id
            ⟨filename, chunk_count, file_size, now, "indexed", none⟩ m.documents)
        simp only [sumChunks]
        rw [sumBy_setKey_absent _ _ _ _ hop]
        dsimp only
        omega
      · show m.statistics.total_size_bytes + file_size = sumSizes (setKey doc_id
            ⟨filename, chunk_count, file_size, now, "indexed", none⟩ m.documents)
        simp only [sumSizes]
        rw [sumBy_setKey_absent _ _ _ _ hop]
        dsimp only
        omega
  | unregister doc_id =>
      cases hlk : lookupKey doc_id m.documents with
      | none =>
          simp only [applyOp, unregister_document, hlk]
          exact ⟨hch, hsz⟩
      | some e =>
          have h1 := sumBy_removeKey_present (fun e => e.chunk_count) doc_id e m.documents hlk
          have h2 := sumBy_removeKey_present (fun e => e.file_size) doc_id e m.documents hlk
          dsimp only at h1 h2
          simp only [applyOp, unregister_document, hlk]
          constructor
          · simp only [sumChunks]
            omega
          · simp only [sumSizes]
            omega
  | updateStatus doc_id status now =>
      cases hlk : lookupKey doc_id m.documents with
      | none =>
          simp only [applyOp, update_document_status, hlk]
          exact ⟨hch, hsz⟩
      | some e =>
          have h1 := sumBy_setKey_present (fun e => e.chunk_count) doc_id
            { e with status := status, last_updated := some now } e m.documents hlk
          have h2 := sumBy_setKey_present (fun e => e.file_size) doc_id
            { e with status := status, last_updated := some now } e m.documents hlk
          dsimp only at h1 h2
          simp only [applyOp, update_document_status, hlk]
          constructor
          · simp only [sumChunks]
            omega
          · simp only [sumSizes]
            omega
  | clearAll now => exact aggregatesExact_empty now

theorem aggregatesExact_runOps (m : Metadata) (ops : List LedgerOp) (h : aggregatesExact m)
    (hops : noOverwrites m ops = true) : aggregatesExact (runOps m ops) := by
  induction ops generalizing m with
  | nil => exact h
  | cons op rest ih =>
      simp only [noOverwrites, Bool.and_eq_true] at hops
      refine ih (applyOp m op) ?_ hops.2
      apply aggregatesExact_applyOp m op h
      cases op <;> simp_all

/-! ### Claim theorems -/

/-- C7: `_load_metadata` reads the backing file's data when it exists and
parses; when the file is missing or its contents fail to parse it returns the
empty ledger structure (version string "1.0", the creation timestamp, an
empty documents map, and all three aggregates zero) instead of raising, so
ledger construction never fails on a corrupt backing file. -/
theorem C7_load_metadata_recovers (d : Metadata) (now : Nat) :
    load_metadata none now = create_empty_metadata now ∧
    load_metadata (some none) now = create_empty_metadata now ∧
    load_metadata (some (some d)) now = d ∧
    (create_empty_metadata now).version = "1.0" ∧
    (create_empty_metadata now).created_at = now ∧
    (create_empty_metadata now).documents = [] ∧
    (create_empty_metadata now).statistics =
      { total_documents := 0, total_chunks := 0, total_size_bytes := 0 } :=
  ⟨rfl, rfl, rfl, rfl, rfl, rfl, rfl⟩

/-- C8: immediately after `register_document(id, f, c, s)`, `document_exists id`
returns true and `get_document_info id` returns an entry with filename `f`,
chunk count `c`, file size `s`, and status "indexed". -/
theorem C8_register_roundtrip (m : Metadata) (doc_id filename : String)
    (chunk_count file_size : Int) (now : Nat) :
    document_exists (register_document m doc_id filename chunk_count file_size now).1
        doc_id = true ∧
    get_document_info (register_document m doc_id filename chunk_count file_size now).1
        doc_id =
      some { filename := filename, chunk_count := chunk_count, file_size := file_size,
             ingested_at := now, status := "indexed", last_updated := none } := by
  constructor
  · simp [document_exists, register_document, lookupKey_setKey_self]
  · simp [get_document_info, register_document, lookupKey_setKey_self]

/-- C9: at every state reachable from the empty ledger by any sequence of
register / unregister / update-status / clear-all operations, the stored
`total_documents` counter equals the number of entries in the documents map. -/
theorem C9_total_documents_matches_map (t0 : Nat) (ops : List LedgerOp) :
    (runOps (create_empty_metadata t0) ops).statistics.total_documents =
      ((runOps (create_empty_metadata t0) ops).documents.length : Int) :=
  (docsCountOk_runOps (create_empty_metadata t0) ops (docsCountOk_empty t0)).1

/-- C10: `validate_chunks` on the empty list returns false even though the
per-chunk conditions hold vacuously; on every non-empty list it returns true
exactly when every chunk carries the `document_id`, `filename` and
`source_path` metadata and has non-blank content. -/
theorem C10_validate_chunks_spec (chunks : List Document) :
    validate_chunks [] = false ∧
    (chunks ≠ [] →
      (validate_chunks chunks = true ↔
        ∀ c ∈ chunks, c.document_id.isSome = true ∧ c.filename.isSome = true ∧
          c.source_path.isSome = true ∧ isBlank c.page_content = false)) := by
  refine ⟨rfl, fun h => ?_⟩
  rw [validate_chunks, if_neg (by simpa [List.isEmpty_iff] using h)]
  rw [List.all_eq_true]
  constructor
  · intro hall c hc
    have := hall c hc
    simp only [Bool.and_eq_true, Bool.not_eq_true'] at this
    tauto
  · intro hall c hc
    have := hall c hc
    simp only [Bool.and_eq_true, Bool.not_eq_true']
    tauto

/-- C10 witness: a concrete singleton chunk with all three identity fields and
non-blank content validates. -/
theorem C10_validate_chunks_spec_witness :
    validate_chunks [⟨"sql stats", some "A1", some "awr1.txt", some "/tmp/a"⟩] = true :=
  ((C10_validate_chunks_spec [⟨"sql stats", some "A1", some "awr1.txt", some "/tmp/a"⟩]).2
    (by decide)).mpr (by decide)

/-- C1 counterexample: registering the same document id twice leaves
`total_documents` at 1 after the second call — the counter is not incremented
by 1 on an overwrite, contradicting the claim's "including when document_id
was already registered". -/
theorem C1_counterexample :
    (register_document (register_document (create_empty_metadata 0)
        "a" "f.pdf" 5 100 1).1 "a" "f.pdf" 3 50 2).1.statistics.total_documents ≠
      (register_document (create_empty_metadata 0)
        "a" "f.pdf" 5 100 1).1.statistics.total_documents + 1 := by
  decide

/-- C1 (amended): `register_document(id, f, c, s)` returns true, inserts or
overwrites the entry for `id` with status "indexed", and increments
`total_chunks` and `total_size_bytes` by exactly `c` and `s`; but
`total_documents` is resynchronized to the number of registered entries, so it
grows by 1 only when `id` was not already registered and is unchanged on an
overwrite. -/
theorem C1_register_updates (m : Metadata) (doc_id filename : String)
    (chunk_count file_size : Int) (now : Nat) :
    (register_document m doc_id filename chunk_count file_size now).2 = true ∧
    lookupKey doc_id
        (register_document m doc_id filename chunk_count file_size now).1.documents =
      some ⟨filename, chunk_count, file_size, now, "indexed", none⟩ ∧
    (register_document m doc_id filename chunk_count file_size now).1.statistics.total_chunks =
      m.statistics.total_chunks + chunk_count ∧
    (register_document m doc_id filename chunk_count file_size now).1.statistics.total_size_bytes =
      m.statistics.total_size_bytes + file_size ∧
    (register_document m doc_id filename chunk_count file_size now).1.statistics.total_documents =
      ((register_document m doc_id filename chunk_count file_size now).1.documents.length : Int) ∧
    (lookupKey doc_id m.documents = none →
      (register_document m doc_id filename chunk_count file_size now).1.documents.length =
        m.documents.length + 1) ∧
    (∀ e, lookupKey doc_id m.documents = some e →
      (register_document m doc_id filename chunk_count file_size now).1.documents.length =
        m.documents.length) := by
  refine ⟨rfl, ?_, rfl, rfl, rfl, ?_, ?_⟩
  · exact lookupKey_setKey_self doc_id _ m.documents
  · intro hnone
    exact length_setKey_absent doc_id _ m.documents hnone
  · intro e he
    exact length_setKey_present doc_id _ e m.documents he

/-- C1 witness: registering a fresh id into the empty ledger grows the
documents map from 0 to 1 entries. -/
theorem C1_register_updates_witness :
    (register_document (create_empty_metadata 0)
        "A1" "awr1.txt" 3 1200 7).1.documents.length =
      (create_empty_metadata 0).documents.length + 1 :=
  (C1_register_updates (create_empty_metadata 0) "A1" "awr1.txt" 3 1200 7).2.2.2.2.2.1 rfl

/-- C2 counterexample: after registering id "b" with 7 chunks and then
overwriting it with 2 chunks, the stored `total_chunks` is 9 while the
recomputed sum over the registered entries is 2 — the incrementally
maintained aggregate does not match a from-scratch recomputation at this
reachable state. -/
theorem C2_counterexample :
    (register_document (register_document (create_empty_metadata 0)
        "b" "g.pdf" 7 300 1).1 "b" "g.pdf" 2 40 2).1.statistics.total_chunks ≠
      sumChunks (register_document (register_document (create_empty_metadata 0)
        "b" "g.pdf" 7 300 1).1 "b" "g.pdf" 2 40 2).1.documents := by
  decide

/-- C2 (amended): at every ledger state reachable from the empty ledger by a
sequence of register / unregister / update-status / clear-all operations in
which no register call overwrites a currently-registered id, the stored
statistics equal the from-scratch recomputation: `total_documents` is the
number of registered entries and `total_chunks` / `total_size_bytes` are the
sums of the entries' chunk counts and file sizes. (An overwriting register
breaks the chunk and byte equalities, per the counterexample.) -/
theorem C2_statistics_match_recomputation (t0 : Nat) (ops : List LedgerOp)
    (h : noOverwrites (create_empty_metadata t0) ops = true) :
    (runOps (create_empty_metadata t0) ops).statistics.total_documents =
      ((runOps (create_empty_metadata t0) ops).documents.length : Int) ∧
    (runOps (create_empty_metadata t0) ops).statistics.total_chunks =
      sumChunks (runOps (create_empty_metadata t0) ops).documents ∧
    (runOps (create_empty_metadata t0) ops).statistics.total_size_bytes =
      sumSizes (runOps (create_empty_metadata t0) ops).documents := by
  have h1 := docsCountOk_runOps (create_empty_metadata t0) ops (docsCountOk_empty t0)
  have h2 := aggregatesExact_runOps (create_empty_metadata t0) ops
    (aggregatesExact_empty t0) h
  exact ⟨h1.1, h2.1, h2.2⟩

/-- C2 witness: a concrete overwrite-free trace — two registrations and one
unregistration — on which the stored statistics match the recomputation. -/
theorem C2_statistics_match_recomputation_witness :
    (runOps (create_empty_metadata 0)
        [LedgerOp.register "A1" "awr1.txt" 3 1200 1,
         LedgerOp.register "A2" "awr2.txt" 2 800 2,
         LedgerOp.unregister "A1"]).statistics.total_chunks =
      sumChunks (runOps (create_empty_metadata 0)
        [LedgerOp.register "A1" "awr1.txt" 3 1200 1,
         LedgerOp.register "A2" "awr2.txt" 2 800 2,
         LedgerOp.unregister "A1"]).documents :=
  (C2_statistics_match_recomputation 0
    [LedgerOp.register "A1" "awr1.txt" 3 1200 1,
     LedgerOp.register "A2" "awr2.txt" 2 800 2,
     LedgerOp.unregister "A1"] (by decide)).2.1

/-- C4: at every ledger state reachable from the empty ledger by operations
whose register calls carry nonnegative chunk counts and file sizes:
unregistering a registered document returns true, removes its entry, and
decreases the three aggregates by exactly (1, its chunk_count, its file_size);
unregistering an unknown id returns false and leaves the whole state
unchanged; and the three aggregates are never negative. -/
theorem C4_unregister_spec (t0 : Nat) (ops : List LedgerOp)
    (hops : opsNonneg ops = true) :
    (∀ doc_id e,
      lookupKey doc_id (runOps (create_empty_metadata t0) ops).documents = some e →
        (unregister_document (runOps (create_empty_metadata t0) ops) doc_id).2 = true ∧
        lookupKey doc_id
            (unregister_document (runOps (create_empty_metadata t0) ops) doc_id).1.documents =
          none ∧
        (unregister_document (runOps (create_empty_metadata t0) ops)
              doc_id).1.statistics.total_documents =
          (runOps (create_empty_metadata t0) ops).statistics.total_documents - 1 ∧
        (unregister_document (runOps (create_empty_metadata t0) ops)
              doc_id).1.statistics.total_chunks =
          (runOps (create_empty_metadata t0) ops).statistics.total_chunks - e.chunk_count ∧
        (unregister_document (runOps (create_empty_metadata t0) ops)
              doc_id).1.statistics.total_size_bytes =
          (runOps (create_empty_metadata t0) ops).statistics.total_size_bytes - e.file_size) ∧
    (∀ doc_id,
      lookupKey doc_id (runOps (create_empty_metadata t0) ops).documents = none →
        unregister_document (runOps (create_empty_metadata t0) ops) doc_id =
          (runOps (create_empty_metadata t0) ops, false)) ∧
    0 ≤ (runOps (create_empty_metadata t0) ops).statistics.total_documents ∧
    0 ≤ (runOps (create_empty_metadata t0) ops).statistics.total_chunks ∧
    0 ≤ (runOps (create_empty_metadata t0) ops).statistics.total_size_bytes := by
  have hcount := docsCountOk_runOps (create_empty_metadata t0) ops (docsCountOk_empty t0)
  have hge := aggregatesGe_runOps (create_empty_metadata t0) ops (aggregatesGe_empty t0) hops
  refine ⟨?_, ?_, ?_, ?_, ?_⟩
  · intro doc_id e he
    refine ⟨?_, ?_, ?_, ?_, ?_⟩
    · simp [unregister_document, he]
    · simp only [unregister_document, he]
      exact lookupKey_removeKey_self doc_id _ hcount.2
    · simp [unregister_document, he]
    · simp [unregister_document, he]
    · simp [unregister_document, he]
  · intro doc_id hnone
    simp [unregister_document, hnone]
  · rw [hcount.1]
    exact_mod_cast Int.natCast_nonneg _
  · calc (0 : Int) ≤ sumChunks (runOps (create_empty_metadata t0) ops).documents := by
          apply sumBy_nonneg
          intro p hp
          exact (hge.2.2 p hp).1
        _ ≤ _ := hge.1
  · calc (0 : Int) ≤ sumSizes (runOps (create_empty_metadata t0) ops).documents := by
          apply sumBy_nonneg
          intro p hp
          exact (hge.2.2 p hp).2
        _ ≤ _ := hge.2.1

/-- C4 witness: after registering "A1" (3 chunks, 1200 bytes) into the empty
ledger, unregistering it succeeds, removes the entry, and the reachable
state's aggregates are nonnegative. -/
theorem C4_unregister_spec_witness :
    (unregister_document (runOps (create_empty_metadata 0)
        [LedgerOp.register "A1" "awr1.txt" 3 1200 1]) "A1").2 = true ∧
    lookupKey "A1" (unregister_document (runOps (create_empty_metadata 0)
        [LedgerOp.register "A1" "awr1.txt" 3 1200 1]) "A1").1.documents = none ∧
    0 ≤ (runOps (create_empty_metadata 0)
        [LedgerOp.register "A1" "awr1.txt" 3 1200 1]).statistics.total_chunks := by
  have h := C4_unregister_spec 0 [LedgerOp.register "A1" "awr1.txt" 3 1200 1] (by decide)
  have h1 := h.1 "A1" ⟨"awr1.txt", 3, 1200, 1, "indexed", none⟩ (by decide)
  exact ⟨h1.1, h1.2.1, h.2.2.2.1⟩

/-- C5: `retrieve_documents` with an empty id list performs an unfiltered
search over the whole collection; with a non-empty list every returned
record's document_id is a member of the supplied set (any-of membership, the
`MatchAny` filter); at most `k` records are returned; and an empty result is
returned normally as the empty list, not raised as an error. -/
theorem C5_retrieve_filtering (coll : List VectorRecord) (doc_ids : List String)
    (k : Nat) :
    retrieve_documents coll [] k = qdrant_search coll k none ∧
    (doc_ids ≠ [] →
      ∀ r ∈ retrieve_documents coll doc_ids k, r.document_id ∈ doc_ids) ∧
    (retrieve_documents coll doc_ids k).length ≤ k ∧
    retrieve_documents [] doc_ids k = [] := by
  refine ⟨rfl, ?_, ?_, ?_⟩
  · intro hne r hr
    rw [retrieve_documents, if_pos (by simpa [List.isEmpty_iff] using hne),
      get_filtered_retriever, if_neg (by simpa [List.isEmpty_iff] using hne),
      qdrant_search] at hr
    have hr2 := List.mem_of_mem_take hr
    rw [List.mem_filter] at hr2
    simpa using hr2.2
  · rw [retrieve_documents]
    by_cases hne : doc_ids.isEmpty
    · rw [if_neg (by simp [hne]), get_unfiltered_retriever, qdrant_search]
      exact List.length_take_le k coll
    · rw [if_pos (by simp [hne]), get_filtered_retriever, if_neg hne, qdrant_search]
      exact List.length_take_le k _
  · rw [retrieve_documents]
    by_cases hne : doc_ids.isEmpty
    · rw [if_neg (by simp [hne])]
      simp [get_unfiltered_retriever, qdrant_search]
    · rw [if_pos (by simp [hne]), get_filtered_retriever, if_neg hne]
      simp [qdrant_search]

/-- C5 witness: with an any-of filter on the single id "A1" over a
two-document collection, every record returned belongs to document "A1". -/
theorem C5_retrieve_filtering_witness :
    ∀ r ∈ retrieve_documents
        [⟨"A2", "awr2.txt", "io stats"⟩, ⟨"A1", "awr1.txt", "cpu usage"⟩]
        ["A1"] 10,
      r.document_id ∈ ["A1"] :=
  (C5_retrieve_filtering
    [⟨"A2", "awr2.txt", "io stats"⟩, ⟨"A1", "awr1.txt", "cpu usage"⟩]
    ["A1"] 10).2.1 (by decide)

/-- C3: for a non-empty chunk list, the indexing consistency check raises
(`Except.error`) exactly when the observed point-count delta is zero; when the
delta is nonzero but differs from the chunk count it still succeeds, returning
the record ids with the non-fatal warning flag set; when the delta equals the
chunk count it succeeds without warning; and with no concurrent writer
between the two reads (`index_documents` composed with the store model) the
point count increases by exactly the number of chunks, with no error and no
warning. -/
theorem C3_index_consistency (coll : QdrantCollection) (docs : List Document)
    (points_before points_after : Nat) (ids : List Nat) (h : docs ≠ []) :
    (points_after = points_before →
      index_documents_observed points_before points_after docs ids =
        .error "Documents were not indexed - no points added to collection!") ∧
    (points_after ≠ points_before →
      (points_after : Int) - (points_before : Int) ≠ (docs.length : Int) →
      index_documents_observed points_before points_after docs ids = .ok (ids, true)) ∧
    ((points_after : Int) - (points_before : Int) = (docs.length : Int) →
      index_documents_observed points_before points_after docs ids = .ok (ids, false)) ∧
    index_documents coll docs =
      .ok { coll := ⟨coll.points_count + docs.length⟩,
            ids := List.range docs.length, warned := false } := by
  have hlen : docs.length ≠ 0 := by
    intro h0
    exact h (List.eq_nil_of_length_eq_zero h0)
  have hne : ¬docs.isEmpty = true := by simpa [List.isEmpty_iff] using h
  refine ⟨?_, ?_, ?_, ?_⟩
  · intro heq
    rw [index_documents_observed, if_neg hne, heq]
    simp
  · intro hnz hdiff
    rw [index_documents_observed, if_neg hne]
    rw [if_neg (by omega)]
    simp only [Except.ok.injEq, Prod.mk.injEq, true_and]
    simpa using hdiff
  · intro heq
    rw [index_documents_observed, if_neg hne]
    rw [if_neg (by omega)]
    simp only [Except.ok.injEq, Prod.mk.injEq, true_and]
    simp [heq]
  · rw [index_documents, if_neg hne]
    simp only [add_documents]
    rw [if_neg (by push_cast; omega)]
    simp

/-- C3 witness: for a one-chunk list, observing an unchanged point count
(3 before, 3 after) raises the consistency error, and indexing into a
3-point collection with no concurrent writer yields 4 points, one id, and no
warning. -/
theorem C3_index_consistency_witness :
    index_documents_observed 3 3 [⟨"cpu usage", some "A1", some "awr1.txt", some "/tmp/a"⟩]
        [] = .error "Documents were not indexed - no points added to collection!" ∧
    index_documents ⟨3⟩ [⟨"cpu usage", some "A1", some "awr1.txt", some "/tmp/a"⟩] =
      .ok { coll := ⟨4⟩, ids := [0], warned := false } := by
  have h := C3_index_consistency ⟨3⟩
    [⟨"cpu usage", some "A1", some "awr1.txt", some "/tmp/a"⟩] 3 3 [] (by decide)
  exact ⟨h.1 rfl, h.2.2.2⟩

/-- C6 counterexample: when the file exists and the loader yields one document
whose content is empty (as `UnstructuredFileLoader` does for a zero-byte
file), the splitter — which produces no chunks from empty content, as
`RecursiveCharacterTextSplitter` does — leaves an empty chunk list, and
`load_and_split_document` returns it silently as a success instead of raising
`LoadError`: "loading yields no content" is only checked as "the document
list is empty". -/
theorem C6_counterexample :
    load_and_split_document (fun s => if s = "" then [] else [s]) true [⟨""⟩]
        "/tmp/empty.txt" "A1" "empty.txt" = .ok [] := by
  rfl

/-- C6 (amended): `load_and_split_document` raises (`Except.error`) when the
source file does not exist, and when loading yields an empty document list;
on success every returned chunk is stamped with the supplied document id,
filename and source path. However, when loading yields documents whose
contents split into zero chunks (e.g. a single empty-content document from a
zero-byte file), it silently returns the empty chunk sequence. -/
theorem C6_load_and_split (split : String → List String) (fileExists : Bool)
    (loaded : List RawDoc) (file_path doc_id filename : String) :
    (fileExists = false →
      load_and_split_document split fileExists loaded file_path doc_id filename =
        .error ("File not found: " ++ file_path)) ∧
    (fileExists = true → loaded = [] →
      load_and_split_document split fileExists loaded file_path doc_id filename =
        .error ("No content loaded from " ++ filename)) ∧
    (∀ chunks,
      load_and_split_document split fileExists loaded file_path doc_id filename =
        .ok chunks →
      ∀ c ∈ chunks, c.document_id = some doc_id ∧ c.filename = some filename ∧
        c.source_path = some file_path) := by
  refine ⟨?_, ?_, ?_⟩
  · intro hf
    rw [load_and_split_document, if_pos (by simp [hf])]
  · intro hf hl
    rw [load_and_split_document, if_neg (by simp [hf]), if_pos (by simp [hl])]
  · intro chunks hok c hc
    rw [load_and_split_document] at hok
    by_cases hf : fileExists
    · rw [if_neg (by simp [hf])] at hok
      by_cases hl : loaded.isEmpty
      · rw [if_pos hl] at hok
        exact absurd hok (by simp)
      · rw [if_neg hl] at hok
        have hchunks : split_documents split (loaded.map fun d =>
            { page_content := d.page_content, document_id := some doc_id,
              filename := some filename, source_path := some file_path }) = chunks := by
          injection hok
        subst hchunks
        rw [split_documents, List.mem_flatMap] at hc
        rcases hc with ⟨d, hd, hcd⟩
        rw [List.mem_map] at hcd
        rcases hcd with ⟨content, _, hcc⟩
        rw [List.mem_map] at hd
        rcases hd with ⟨raw, _, hdr⟩
        subst hcc
        subst hdr
        exact ⟨rfl, rfl, rfl⟩
    · rw [if_pos (by simp [hf])] at hok
      exact absurd hok (by simp)

/-- C6 witness: a missing file raises the file-not-found error, and every
chunk produced from a successfully loaded document is stamped with the
supplied identity metadata. -/
theorem C6_load_and_split_witness :
    load_and_split_document (fun s => [s]) false [] "/tmp/gone.txt" "A9" "gone.txt" =
      .error ("File not found: " ++ "/tmp/gone.txt") ∧
    ∀ c ∈ [(⟨"awr report text", some "A9", some "gone.txt", some "/tmp/gone.txt"⟩ :
        Document)],
      c.document_id = some "A9" ∧ c.filename = some "gone.txt" ∧
        c.source_path = some "/tmp/gone.txt" := by
  constructor
  · exact (C6_load_and_split (fun s => [s]) false [] "/tmp/gone.txt" "A9" "gone.txt").1 rfl
  · exact (C6_load_and_split (fun s => [s]) true [⟨"awr report text"⟩]
      "/tmp/gone.txt" "A9" "gone.txt").2.2
      [⟨"awr report text", some "A9", some "gone.txt", some "/tmp/gone.txt"⟩] (by rfl)

end AwrRag
